import Mathlib

/-!
Risv_Edge_AI: the UART intake protocol and the inference orchestrator of `main.c`.

A shallow embedding of `src/main.c`.

* Arrays (`image_buffer`, `layer_out`, `layer_in`, the weight and bias tables) are memories
  `Nat → Int`, indexed by element.
* `int` variables are `Int`; `++frame_counter` wraps to the signed 32-bit range, the
  subtraction of the two `uint32_t` tick readings wraps modulo `2^32`.
* A write outside `image_buffer` has no defined behaviour: the handler returns `none` there.
* `main.c` includes `dr_inference.c` and `dr_model.h`.  What it takes from them, the three
  helpers `processfclayer`, `ReLUNorm`, `findMaxIndex`, the parameter tables and the
  dimension constants, are the fields of `Model`; the orchestrator is embedded over an
  arbitrary `Model`.
* The receive handler runs to completion.  `main`'s loop is cut into the parts between which
  the handler can run; the inference call is one part, reading `image_buffer` as it is when
  the call is made (the handler does not write the buffer while the flag is set).
-/

namespace RisvEdgeAI

/-! ## Constants and conversions -/

/-- The macro `IMAGE_WIDTH`. -/
def IMAGE_WIDTH : Nat := 32

/-- The macro `IMAGE_HEIGHT`. -/
def IMAGE_HEIGHT : Nat := 32

/-- The macro `IMAGE_CHANNELS`. -/
def IMAGE_CHANNELS : Nat := 1

/-- The macro `INPUT_SIZE`, the length of `image_buffer`. -/
def INPUT_SIZE : Nat := IMAGE_WIDTH * IMAGE_HEIGHT * IMAGE_CHANNELS

/-- The conversion `(int8_t)x` of the data word returned by `USART_ReceiveData`:
the low eight bits, read as a two's complement number. -/
def toInt8 (x : Nat) : Int :=
  if x % 256 < 128 then ((x % 256 : Nat) : Int) else ((x % 256 : Nat) : Int) - 256

/-- The value an `int` holds after an arithmetic result `x` is stored in it:
two's complement wrap-around to 32 bits (what the target does on the signed overflow that
C leaves undefined). -/
def wrapInt32 (x : Int) : Int := (x + 2147483648) % 4294967296 - 2147483648

/-- The `uint32_t` subtraction `a - b`. -/
def subU32 (a b : Nat) : Nat := (a + 4294967296 - b % 4294967296) % 4294967296

/-! ## Console output -/

/-- The lines the program prints, one constructor per `printf` call of `main.c`. -/
inductive Out where
  /-- The line "--- VSD Squadron Diabetic Retinopathy Classifier ---". -/
  | banner
  /-- The line "Model Input Size: %dx%d Grayscale (%d bytes)". -/
  | inputSize (w h n : Nat)
  /-- The line "Ready to receive image data via UART...". -/
  | ready
  /-- The line "Running inference on sample #%d...". -/
  | running (sample_num : Int)
  /-- The line of dashes. -/
  | rule
  /-- The line "Prediction: %ld (%s)": the index and the result of reading
  `class_names[prediction_index]` (`none` for an entry without initialiser). -/
  | prediction (index : Int) (label : Option String)
  /-- The line "Timing: %lu clock cycles". -/
  | timing (cycles : Nat)
  /-- The line of dashes followed by a blank line. -/
  | ruleBlank
  /-- The line "Error: Prediction index out of bounds.". -/
  | outOfBounds
  deriving DecidableEq, Repr

/-! ## The model parameters and helpers that `main.c` includes -/

/-- The names `main.c` takes from `dr_inference.c` and `dr_model.h`.  The helpers act on
memories: `processfclayer input weights biases n_in n_out out` is the content of the output
array after the call when it held `out` before, likewise `ReLUNorm input out n`;
`findMaxIndex input n` is the returned index, a position of the array it is handed, which
fits the `int32_t` it is stored in.  `NUM_CLASSES` is the number of entries the table
`class_names` is declared with; the index being a position, the test
`prediction_index < NUM_CLASSES` has the same outcome whether the constant is written as a
signed or as an unsigned number. -/
structure Model where
  processfclayer : (Nat → Int) → (Nat → Int) → (Nat → Int) → Nat → Nat → (Nat → Int) → (Nat → Int)
  ReLUNorm : (Nat → Int) → (Nat → Int) → Nat → (Nat → Int)
  findMaxIndex : (Nat → Int) → Nat → Nat
  L1_weights : Nat → Int
  L1_biases : Nat → Int
  L2_weights : Nat → Int
  L2_biases : Nat → Int
  L3_weights : Nat → Int
  L3_biases : Nat → Int
  L1_IN_NODES : Nat
  L1_OUT_NODES : Nat
  L2_IN_NODES : Nat
  L2_OUT_NODES : Nat
  L3_IN_NODES : Nat
  L3_OUT_NODES : Nat
  NUM_CLASSES : Nat

/-- The initialisers of the table `class_names`. -/
def classLabels : List String := ["Mild", "Moderate", "No_DR", "Proliferate_DR", "Severe"]

/-- The read `class_names[i]` of the table declared with `NUM_CLASSES` entries.  It is
defined only at a position inside the table, which the two proofs certify: the result is
the label of an entry that has an initialiser and `none` for an entry that has none. -/
def class_names (M : Model) (i : Int) (_h0 : 0 ≤ i) (_h1 : i < (M.NUM_CLASSES : Int)) :
    Option String :=
  classLabels.get? i.toNat

/-- What one call of `DiabeticRetinopathyInference` takes from its surroundings: the two
readings of `SysTick->CNT` and the content of the two uninitialised local arrays
`layer_out` and `layer_in` (taken to be large enough for every layer). -/
structure Env where
  start_ticks : Nat
  end_ticks : Nat
  layer_out : Nat → Int
  layer_in : Nat → Int

/-- The result of `DiabeticRetinopathyInference`: the local `prediction_index` and the lines
printed. -/
structure InferenceResult where
  prediction_index : Int
  output : List Out

/-- The function `DiabeticRetinopathyInference(sample_num)` reading `image_buffer`. -/
def DiabeticRetinopathyInference (M : Model) (e : Env) (image_buffer : Nat → Int)
    (sample_num : Int) : InferenceResult :=
  let start_ticks := e.start_ticks
  let layer_out := M.processfclayer image_buffer M.L1_weights M.L1_biases
    M.L1_IN_NODES M.L1_OUT_NODES e.layer_out
  let layer_in := M.ReLUNorm layer_out e.layer_in M.L1_OUT_NODES
  let layer_out := M.processfclayer layer_in M.L2_weights M.L2_biases
    M.L2_IN_NODES M.L2_OUT_NODES layer_out
  let layer_in := M.ReLUNorm layer_out layer_in M.L2_OUT_NODES
  let layer_out := M.processfclayer layer_in M.L3_weights M.L3_biases
    M.L3_IN_NODES M.L3_OUT_NODES layer_out
  let prediction_index : Int := (M.findMaxIndex layer_out M.L3_OUT_NODES : Nat)
  let end_ticks := e.end_ticks
  if h : prediction_index < (M.NUM_CLASSES : Int) then
    { prediction_index := prediction_index
      output := [Out.running sample_num, Out.rule,
        Out.prediction prediction_index
          (class_names M prediction_index (Int.ofNat_nonneg _) h),
        Out.timing (subU32 end_ticks start_ticks), Out.ruleBlank] }
  else
    { prediction_index := prediction_index
      output := [Out.running sample_num, Out.outOfBounds] }

/-- The content of `layer_out` when `DiabeticRetinopathyInference` calls `findMaxIndex`. -/
def finalLayer (M : Model) (e : Env) (image_buffer : Nat → Int) : Nat → Int :=
  let layer_out := M.processfclayer image_buffer M.L1_weights M.L1_biases
    M.L1_IN_NODES M.L1_OUT_NODES e.layer_out
  let layer_in := M.ReLUNorm layer_out e.layer_in M.L1_OUT_NODES
  let layer_out := M.processfclayer layer_in M.L2_weights M.L2_biases
    M.L2_IN_NODES M.L2_OUT_NODES layer_out
  let layer_in := M.ReLUNorm layer_out layer_in M.L2_OUT_NODES
  M.processfclayer layer_in M.L3_weights M.L3_biases M.L3_IN_NODES M.L3_OUT_NODES layer_out

/-! ## The shared state, the receive handler and the main loop -/

/-- The places of `main`'s loop between which the receive interrupt can be taken:
before the test of `inference_ready`, before the call of the inference, before the
assignment `inference_ready = 0`, and in `Delay_Ms`. -/
inductive Loc where
  | poll
  | call
  | clear
  | delay
  deriving DecidableEq, Repr

/-- The program state: the three globals, `main`'s local `frame_counter` and place in the
loop, the console, and the record `calls` of the inference calls made so far (sample number
and the `image_buffer` the call read). -/
structure State where
  image_buffer : Nat → Int
  uart_rx_count : Int
  inference_ready : Int
  frame_counter : Int
  loc : Loc
  console : List Out
  calls : List (Int × (Nat → Int))

/-- The state when `main` enters its loop: zero-initialised globals, the three start-up
lines printed. -/
def initState : State where
  image_buffer := fun _ => 0
  uart_rx_count := 0
  inference_ready := 0
  frame_counter := 0
  loc := Loc.poll
  console := [Out.banner, Out.inputSize IMAGE_WIDTH IMAGE_HEIGHT INPUT_SIZE, Out.ready]
  calls := []

/-- The handler `USART1_IRQHandler`; `rxne` is the outcome of the `USART_GetITStatus` test
and `data` the word `USART_ReceiveData` returns.  The result is `none` when the store
`image_buffer[uart_rx_count++]` falls outside the array. -/
def USART1_IRQHandler (rxne : Bool) (data : Nat) (s : State) : Option State :=
  if rxne then
    if s.inference_ready ≠ 0 then
      some s
    else if 0 ≤ s.uart_rx_count ∧ s.uart_rx_count < (INPUT_SIZE : Int) then
      let s1 : State :=
        { s with
          image_buffer := Function.update s.image_buffer s.uart_rx_count.toNat (toInt8 data)
          uart_rx_count := wrapInt32 (s.uart_rx_count + 1) }
      if s1.uart_rx_count ≥ (INPUT_SIZE : Int) then
        some { s1 with uart_rx_count := 0, inference_ready := 1 }
      else
        some s1
    else
      none
  else
    some s

/-- One uninterrupted pass through the body of `main`'s `while (1)` loop. -/
def main_loop_body (M : Model) (e : Env) (s : State) : State :=
  if s.inference_ready ≠ 0 then
    let n := wrapInt32 (s.frame_counter + 1)
    let r := DiabeticRetinopathyInference M e s.image_buffer n
    { s with
      frame_counter := n
      console := s.console ++ r.output ++ [Out.ready]
      calls := s.calls ++ [(n, s.image_buffer)]
      inference_ready := 0 }
  else
    s

/-- The body of `main`'s loop cut at the places of `Loc`: the part run from the place
`s.loc` up to the next place. -/
def mainStep (M : Model) (e : Env) (s : State) : State :=
  match s.loc with
  | Loc.poll =>
    if s.inference_ready ≠ 0 then { s with loc := Loc.call } else { s with loc := Loc.delay }
  | Loc.call =>
    let n := wrapInt32 (s.frame_counter + 1)
    let r := DiabeticRetinopathyInference M e s.image_buffer n
    { s with
      frame_counter := n
      console := s.console ++ r.output
      calls := s.calls ++ [(n, s.image_buffer)]
      loc := Loc.clear }
  | Loc.clear =>
    { s with inference_ready := 0, console := s.console ++ [Out.ready], loc := Loc.delay }
  | Loc.delay => { s with loc := Loc.poll }

/-- The steps of the system: one run of the receive handler, or one part of `main`'s loop. -/
inductive Step where
  | irq (rxne : Bool) (data : Nat)
  | main (e : Env)

/-- The effect of one step. -/
def step (M : Model) (st : Step) (s : State) : Option State :=
  match st with
  | Step.irq rxne data => USART1_IRQHandler rxne data s
  | Step.main e => some (mainStep M e s)

/-- The effect of a sequence of steps. -/
def run (M : Model) : List Step → State → Option State
  | [], s => some s
  | st :: rest, s =>
    match step M st s with
    | none => none
    | some s1 => run M rest s1

/-- The number of steps of a run that change `inference_ready` from zero to non-zero,
together with the final state. -/
def runRises (M : Model) : List Step → State → Option (Nat × State)
  | [], s => some (0, s)
  | st :: rest, s =>
    match step M st s with
    | none => none
    | some s1 =>
      match runRises M rest s1 with
      | none => none
      | some (n, t) =>
        some ((if s.inference_ready = 0 ∧ s1.inference_ready ≠ 0 then n + 1 else n), t)

/-- The states the system reaches from `initState`. -/
inductive Reachable (M : Model) : State → Prop where
  | init : Reachable M initState
  | step (s s1 : State) (st : Step) : Reachable M s → step M st s = some s1 → Reachable M s1

/-- The arrival of the bytes `bs`, one handler run each. -/
def arrivals (bs : List Nat) : List Step := bs.map (fun b => Step.irq true b)

/-- The parts of one pass through the loop body that finds `inference_ready` set:
the test, the inference call, the flag clear, the delay. -/
def iteration (e : Env) : List Step := [Step.main e, Step.main e, Step.main e, Step.main e]

/-- The arrival of the bytes `bs` seen by the handler alone: one run with the receive flag
set for each byte, in order. -/
def feed : List Nat → State → Option State
  | [], s => some s
  | b :: bs, s =>
    match USART1_IRQHandler true b s with
    | none => none
    | some s1 => feed bs s1

/-- The content of a buffer `buf` whose first `bs.length` elements have been overwritten
with the bytes `bs`, each converted to `int8_t`. -/
def written (bs : List Nat) (buf : Nat → Int) : Nat → Int :=
  fun i => if i < bs.length then toInt8 (bs.getD i 0) else buf i

/-- One round of traffic: a frame of `INPUT_SIZE` bytes, the bytes that arrive after it
before the consumer looks, and the surroundings of the consumer's pass. -/
structure Round where
  frame : List Nat
  extra : List Nat
  env : Env

/-- The steps of one round: the frame arrives, the extra bytes arrive, the loop body runs. -/
def roundSteps (r : Round) : List Step :=
  arrivals r.frame ++ (arrivals r.extra ++ iteration r.env)

/-- The steps of a sequence of rounds. -/
def roundsSteps : List Round → List Step
  | [] => []
  | r :: rs => roundSteps r ++ roundsSteps rs

/-- The facts about the globals and `main`'s place that every reachable state has: the
cursor is inside the buffer, it is zero and the flag is one while a sample is pending, the
flag is set from the inference call to the flag clear, and before the flag clear the last
recorded call is the call of the current sample on the buffer as it now is. -/
structure Inv (s : State) : Prop where
  cursor_nonneg : 0 ≤ s.uart_rx_count
  cursor_lt : s.uart_rx_count < (INPUT_SIZE : Int)
  pending_cursor : s.inference_ready ≠ 0 → s.uart_rx_count = 0
  flag_value : s.inference_ready = 0 ∨ s.inference_ready = 1
  pass_pending : s.loc = Loc.call ∨ s.loc = Loc.clear → s.inference_ready ≠ 0
  pass_called : s.loc = Loc.clear →
    s.calls.getLast? = some (s.frame_counter, s.image_buffer)

/-! ## The helpers as given functions, and their contracts -/

/-- Two memories hold the same first `n` elements. -/
def AgreeUpTo (n : Nat) (a b : Nat → Int) : Prop := ∀ i, i < n → a i = b i

/-- The helpers are functions of the elements they are handed: `processfclayer` determines
the first `n_out` elements of its output from the first `n_in` elements of its input,
`ReLUNorm` the first `n` elements of its output from the first `n` of its input, and
`findMaxIndex` its result from the first `n` elements. -/
structure Framed (M : Model) : Prop where
  processfclayer : ∀ (x y W B : Nat → Int) (n_in n_out : Nat) (o p : Nat → Int),
    AgreeUpTo n_in x y →
    AgreeUpTo n_out (M.processfclayer x W B n_in n_out o) (M.processfclayer y W B n_in n_out p)
  ReLUNorm : ∀ (a b o p : Nat → Int) (n : Nat),
    AgreeUpTo n a b → AgreeUpTo n (M.ReLUNorm a o n) (M.ReLUNorm b p n)
  findMaxIndex : ∀ (a b : Nat → Int) (n : Nat),
    AgreeUpTo n a b → M.findMaxIndex a n = M.findMaxIndex b n

/-- The dense layer `k` as a function of its input vector: `processfclayer` with the
layer's weights, biases and dimensions, on a fresh output array. -/
def FC (M : Model) (W B : Nat → Int) (n_in n_out : Nat) (x : Nat → Int) : Nat → Int :=
  M.processfclayer x W B n_in n_out (fun _ => 0)

/-- The requantizer as a function of an accumulator vector of length `n`: `ReLUNorm` on a
fresh output array. -/
def Requantize (M : Model) (n : Nat) (a : Nat → Int) : Nat → Int :=
  M.ReLUNorm a (fun _ => 0) n

/-- The prediction as the specification composes it:
`findMaxIndex(FC3(ReLUNorm(FC2(ReLUNorm(FC1(image_buffer))))))` over `L3_OUT_NODES`. -/
def referencePrediction (M : Model) (image_buffer : Nat → Int) : Int :=
  ((M.findMaxIndex
    (FC M M.L3_weights M.L3_biases M.L3_IN_NODES M.L3_OUT_NODES
      (Requantize M M.L2_OUT_NODES
        (FC M M.L2_weights M.L2_biases M.L2_IN_NODES M.L2_OUT_NODES
          (Requantize M M.L1_OUT_NODES
            (FC M M.L1_weights M.L1_biases M.L1_IN_NODES M.L1_OUT_NODES image_buffer)))))
    M.L3_OUT_NODES : Nat) : Int)

/-- Modelled from the spec: the output of unit `j` of the dense-layer kernel
(`processfclayer`, in `dr_inference.c`) before the bias is added, the exact integer dot
product of the input with row `j` of the `out × in` weight matrix. -/
def dotRow (x W : Nat → Int) (n_in j : Nat) : Int :=
  ∑ i in Finset.range n_in, x i * W (j * n_in + i)

/-- Modelled from the spec: the saturation of the requantizer into the signed 8-bit
range. -/
def saturate8 (v : Int) : Int := if v < -128 then -128 else if v > 127 then 127 else v

/-- Modelled from the spec: the requantizer (`ReLUNorm`, in `dr_inference.c`) on one
element: rectify, shift right arithmetically by `shift`, saturate. -/
def requant (shift : Nat) (v : Int) : Int := saturate8 ((max v 0) >>> shift)

/-- Modelled from the spec: the contracts of the three helpers of `dr_inference.c`:
exact dot product plus bias; rectify, shift, saturate; the lowest index of the maximum. -/
structure MeetsContracts (M : Model) (shift : Nat) : Prop where
  processfclayer : ∀ (x W B : Nat → Int) (n_in n_out : Nat) (o : Nat → Int) (j : Nat),
    j < n_out → M.processfclayer x W B n_in n_out o j = dotRow x W n_in j + B j
  ReLUNorm : ∀ (a o : Nat → Int) (n i : Nat),
    i < n → M.ReLUNorm a o n i = requant shift (a i)
  findMaxIndex : ∀ (a : Nat → Int) (n : Nat), 0 < n →
    ∃ k : Nat, M.findMaxIndex a n = k ∧ k < n ∧
      (∀ i, i < n → a i ≤ a k) ∧ (∀ i, i < k → a i < a k)

/-- Modelled from the spec: `processfclayer` of `dr_inference.c`, writing the `n_out`
outputs of the dense layer and leaving the rest of the output array as it was. -/
def specProcessfclayer (x W B : Nat → Int) (n_in n_out : Nat) (o : Nat → Int) : Nat → Int :=
  fun j => if j < n_out then dotRow x W n_in j + B j else o j

/-- Modelled from the spec: `ReLUNorm` of `dr_inference.c` with requantization shift
`shift`, writing `n` activations and leaving the rest of the output array as it was. -/
def specReLUNorm (shift : Nat) (a o : Nat → Int) (n : Nat) : Nat → Int :=
  fun i => if i < n then requant shift (a i) else o i

/-- Modelled from the spec: the scan of the argmax selector over the first `n` elements,
keeping the earlier index on a tie. -/
def argmaxScan (a : Nat → Int) : Nat → Nat
  | 0 => 0
  | n + 1 => if a (argmaxScan a n) < a n then n else argmaxScan a n

/-- Modelled from the spec: `findMaxIndex` of `dr_inference.c`. -/
def specFindMaxIndex (a : Nat → Int) (n : Nat) : Nat := argmaxScan a n

/-! ## Concrete instances -/

/-- A small network over the helpers modelled from the spec: 1024 inputs, layers of
4, 3 and 5 units, shift 2, zero biases, five classes. -/
def demoModel : Model where
  processfclayer := specProcessfclayer
  ReLUNorm := specReLUNorm 2
  findMaxIndex := specFindMaxIndex
  L1_weights := fun i => (i % 7 : Nat) - 3
  L1_biases := fun _ => 0
  L2_weights := fun i => (i % 5 : Nat) - 2
  L2_biases := fun _ => 0
  L3_weights := fun i => (i % 3 : Nat) - 1
  L3_biases := fun _ => 0
  L1_IN_NODES := 1024
  L1_OUT_NODES := 4
  L2_IN_NODES := 4
  L2_OUT_NODES := 3
  L3_IN_NODES := 3
  L3_OUT_NODES := 5
  NUM_CLASSES := 5

/-- The network `demoModel` with a `findMaxIndex` that returns `7`. -/
def largeIndexModel : Model := { demoModel with findMaxIndex := fun _ _ => 7 }

/-- Surroundings of a call in which the cycle counter wraps between the two readings. -/
def demoEnv : Env where
  start_ticks := 4294967290
  end_ticks := 5
  layer_out := fun i => (i : Int) + 17
  layer_in := fun i => 3 - (i : Int)

/-- A frame of `INPUT_SIZE` bytes of value 200. -/
def demoFrame : List Nat := List.replicate 1024 200

/-- A round with the frame `demoFrame` followed by two more bytes. -/
def demoRound : Round where
  frame := demoFrame
  extra := [1, 2]
  env := demoEnv

/-- The state after `demoFrame` has arrived in `initState`. -/
def pendingState : State :=
  { initState with
    image_buffer := written demoFrame initState.image_buffer
    inference_ready := 1 }

/-- The state one byte before a frame is complete. -/
def lastByteState : State := { initState with uart_rx_count := 1023 }

/-! ## Basic facts -/

theorem INPUT_SIZE_eq : INPUT_SIZE = 1024 := rfl

theorem wrapInt32_of_bounds (x : Int) (h1 : -2147483648 ≤ x) (h2 : x < 2147483648) :
    wrapInt32 x = x := by
  unfold wrapInt32
  omega

theorem handler_pending (rxne : Bool) (d : Nat) (s : State) (h : s.inference_ready ≠ 0) :
    USART1_IRQHandler rxne d s = some s := by
  unfold USART1_IRQHandler
  cases rxne <;> simp [h]

theorem handler_collect (d : Nat) (s : State) (hr : s.inference_ready = 0)
    (h0 : 0 ≤ s.uart_rx_count) (h1 : s.uart_rx_count + 1 < (INPUT_SIZE : Int)) :
    USART1_IRQHandler true d s = some
      { s with
        image_buffer := Function.update s.image_buffer s.uart_rx_count.toNat (toInt8 d)
        uart_rx_count := s.uart_rx_count + 1 } := by
  have hw : wrapInt32 (s.uart_rx_count + 1) = s.uart_rx_count + 1 := by
    apply wrapInt32_of_bounds <;> simp only [INPUT_SIZE_eq] at h1 <;> omega
  have h2 : s.uart_rx_count < (INPUT_SIZE : Int) := by omega
  have h3 : ¬ ((INPUT_SIZE : Int) ≤ s.uart_rx_count + 1) := by omega
  simp [USART1_IRQHandler, hr, h0, h2, hw, h3]

theorem handler_last (d : Nat) (s : State) (hr : s.inference_ready = 0)
    (h1 : s.uart_rx_count + 1 = (INPUT_SIZE : Int)) :
    USART1_IRQHandler true d s = some
      { s with
        image_buffer := Function.update s.image_buffer s.uart_rx_count.toNat (toInt8 d)
        uart_rx_count := 0
        inference_ready := 1 } := by
  have hw : wrapInt32 (s.uart_rx_count + 1) = s.uart_rx_count + 1 := by
    apply wrapInt32_of_bounds <;> simp only [INPUT_SIZE_eq] at h1 <;> omega
  have h0 : 0 ≤ s.uart_rx_count := by simp only [INPUT_SIZE_eq] at h1; omega
  have h2 : s.uart_rx_count < (INPUT_SIZE : Int) := by omega
  have h3 : (INPUT_SIZE : Int) ≤ s.uart_rx_count + 1 := by omega
  simp [USART1_IRQHandler, hr, h0, h2, hw, h3]

theorem feed_append (xs ys : List Nat) (s : State) :
    feed (xs ++ ys) s = (feed xs s).bind (feed ys) := by
  induction xs generalizing s with
  | nil => simp [feed]
  | cons b bs ih =>
    simp only [List.cons_append, feed]
    cases USART1_IRQHandler true b s with
    | none => simp
    | some s1 => simpa using ih s1

theorem feed_pending (bs : List Nat) (s : State) (h : s.inference_ready ≠ 0) :
    feed bs s = some s := by
  induction bs with
  | nil => rfl
  | cons b bs ih => simp [feed, handler_pending true b s h, ih]

theorem written_snoc (l : List Nat) (b : Nat) (buf : Nat → Int) :
    Function.update (written l buf) l.length (toInt8 b) = written (l ++ [b]) buf := by
  funext i
  unfold written
  by_cases hi : i = l.length
  · subst hi
    simp [List.getD_append_right]
  · by_cases hlt : i < l.length
    · have : i < l.length + 1 := by omega
      simp [Function.update, hi, hlt, this, List.getElem_append_left]
    · have : ¬ i < l.length + 1 := by omega
      simp [Function.update, hi, hlt, this]

theorem feed_collecting (bs : List Nat) (s : State) (hc : s.uart_rx_count = 0)
    (hr : s.inference_ready = 0) (hl : bs.length < INPUT_SIZE) :
    feed bs s = some
      { s with image_buffer := written bs s.image_buffer, uart_rx_count := (bs.length : Int) } := by
  induction bs using List.reverseRecOn with
  | nil =>
    have : written [] s.image_buffer = s.image_buffer := by
      funext i; simp [written]
    simp [feed, this, ← hc]
  | append_singleton l b ih =>
    have hl1 : l.length + 1 < INPUT_SIZE := by simpa using hl
    rw [feed_append, ih (by omega)]
    simp only [Option.some_bind, feed]
    have key := handler_collect b
      { s with image_buffer := written l s.image_buffer, uart_rx_count := (l.length : Int) }
      hr (by simp) (by simp; omega)
    rw [key]
    simp [written_snoc]

theorem feed_full (bs : List Nat) (s : State) (hc : s.uart_rx_count = 0)
    (hr : s.inference_ready = 0) (hl : bs.length = INPUT_SIZE) :
    feed bs s = some
      { s with
        image_buffer := written bs s.image_buffer
        uart_rx_count := 0
        inference_ready := 1 } := by
  induction bs using List.reverseRecOn with
  | nil => simp [INPUT_SIZE_eq] at hl
  | append_singleton l b _ =>
    have hl1 : l.length + 1 = INPUT_SIZE := by simpa using hl
    rw [feed_append, feed_collecting l s hc hr (by omega)]
    simp only [Option.some_bind, feed]
    have key := handler_last b
      { s with image_buffer := written l s.image_buffer, uart_rx_count := (l.length : Int) }
      hr (by simp; omega)
    rw [key]
    simp [written_snoc]

/-! ## The orchestrator -/

theorem inference_prediction (M : Model) (e : Env) (image : Nat → Int) (n : Int) :
    (DiabeticRetinopathyInference M e image n).prediction_index =
      ((M.findMaxIndex (finalLayer M e image) M.L3_OUT_NODES : Nat) : Int) := by
  unfold DiabeticRetinopathyInference finalLayer
  simp only []
  split_ifs <;> rfl

theorem inference_nonneg (M : Model) (e : Env) (image : Nat → Int) (n : Int) :
    0 ≤ (DiabeticRetinopathyInference M e image n).prediction_index := by
  rw [inference_prediction]
  exact Int.ofNat_nonneg _

theorem class_names_eq (M : Model) (i : Int) (h0 : 0 ≤ i) (h1 : i < (M.NUM_CLASSES : Int)) :
    class_names M i h0 h1 = classLabels.get? i.toNat := rfl

theorem inference_in_range (M : Model) (e : Env) (image : Nat → Int) (n : Int)
    (h : (DiabeticRetinopathyInference M e image n).prediction_index
      < (M.NUM_CLASSES : Int)) :
    (DiabeticRetinopathyInference M e image n).output =
      [Out.running n, Out.rule,
        Out.prediction (DiabeticRetinopathyInference M e image n).prediction_index
          (class_names M (DiabeticRetinopathyInference M e image n).prediction_index
            (inference_nonneg M e image n) h),
        Out.timing (subU32 e.end_ticks e.start_ticks), Out.ruleBlank] := by
  have h2 := h
  rw [inference_prediction] at h2
  unfold finalLayer at h2
  simp only [class_names_eq]
  rw [inference_prediction]
  unfold DiabeticRetinopathyInference finalLayer
  simp only [class_names_eq]
  rw [dif_pos h2]

theorem inference_out_of_range (M : Model) (e : Env) (image : Nat → Int) (n : Int)
    (h : ¬ (DiabeticRetinopathyInference M e image n).prediction_index
      < (M.NUM_CLASSES : Int)) :
    (DiabeticRetinopathyInference M e image n).output = [Out.running n, Out.outOfBounds] := by
  rw [inference_prediction] at h
  unfold finalLayer at h
  unfold DiabeticRetinopathyInference
  simp only []
  rw [dif_neg h]

theorem subU32_cast (a b : Nat) (ha : a < 4294967296) (hb : b < 4294967296) :
    ((subU32 a b : Nat) : Int) = ((a : Int) - (b : Int)) % 4294967296 := by
  unfold subU32
  omega

theorem subU32_add (a d : Nat) (ha : a < 4294967296) (hd : d < 4294967296) :
    subU32 ((a + d) % 4294967296) a = d := by
  unfold subU32
  omega


/-! ## The handler, case by case -/

theorem handler_not_rxne (d : Nat) (s : State) : USART1_IRQHandler false d s = some s := by
  simp [USART1_IRQHandler]

theorem handler_outside (d : Nat) (s : State) (hr : s.inference_ready = 0)
    (h : ¬ (0 ≤ s.uart_rx_count ∧ s.uart_rx_count < (INPUT_SIZE : Int))) :
    USART1_IRQHandler true d s = none := by
  simp only [USART1_IRQHandler, hr, if_true, ne_eq, not_true_eq_false, if_false, h]

theorem handler_cases (rxne : Bool) (d : Nat) (s t : State)
    (h : USART1_IRQHandler rxne d s = some t) :
    (t = s ∧ (rxne = false ∨ s.inference_ready ≠ 0)) ∨
    (rxne = true ∧ s.inference_ready = 0 ∧ 0 ≤ s.uart_rx_count ∧
      s.uart_rx_count + 1 < (INPUT_SIZE : Int) ∧
      t = { s with
            image_buffer := Function.update s.image_buffer s.uart_rx_count.toNat (toInt8 d)
            uart_rx_count := s.uart_rx_count + 1 }) ∨
    (rxne = true ∧ s.inference_ready = 0 ∧ s.uart_rx_count + 1 = (INPUT_SIZE : Int) ∧
      t = { s with
            image_buffer := Function.update s.image_buffer s.uart_rx_count.toNat (toInt8 d)
            uart_rx_count := 0
            inference_ready := 1 }) := by
  cases rxne with
  | false =>
    rw [handler_not_rxne] at h
    exact Or.inl ⟨(Option.some.inj h).symm, Or.inl rfl⟩
  | true =>
    by_cases hr : s.inference_ready = 0
    · by_cases hb : 0 ≤ s.uart_rx_count ∧ s.uart_rx_count < (INPUT_SIZE : Int)
      · by_cases hlast : s.uart_rx_count + 1 < (INPUT_SIZE : Int)
        · rw [handler_collect d s hr hb.1 hlast] at h
          exact Or.inr (Or.inl ⟨rfl, hr, hb.1, hlast, (Option.some.inj h).symm⟩)
        · have hlast1 : s.uart_rx_count + 1 = (INPUT_SIZE : Int) := by omega
          rw [handler_last d s hr hlast1] at h
          exact Or.inr (Or.inr ⟨rfl, hr, hlast1, (Option.some.inj h).symm⟩)
      · rw [handler_outside d s hr hb] at h
        exact absurd h (by simp)
    · rw [handler_pending true d s hr] at h
      exact Or.inl ⟨(Option.some.inj h).symm, Or.inr hr⟩

/-! ## The invariant -/

theorem inv_init : Inv initState := by
  constructor <;> simp [initState, INPUT_SIZE_eq]

theorem inv_handler (rxne : Bool) (d : Nat) (s t : State) (hi : Inv s)
    (h : USART1_IRQHandler rxne d s = some t) : Inv t := by
  rcases handler_cases rxne d s t h with ⟨rfl, _⟩ | ⟨_, hr, h0, h1, rfl⟩ | ⟨_, hr, h1, rfl⟩
  · exact hi
  · constructor
    · show 0 ≤ s.uart_rx_count + 1
      omega
    · exact h1
    · intro hne
      exact absurd hr hne
    · exact Or.inl hr
    · intro hl
      exact absurd hr (hi.pass_pending hl)
    · intro hl
      exact absurd hr (hi.pass_pending (Or.inr hl))
  · constructor
    · show (0 : Int) ≤ 0
      omega
    · show (0 : Int) < (INPUT_SIZE : Int)
      simp [INPUT_SIZE_eq]
    · intro _
      rfl
    · exact Or.inr rfl
    · intro _
      show (1 : Int) ≠ 0
      omega
    · intro hl
      exact absurd hr (hi.pass_pending (Or.inr hl))

theorem inv_mainStep (M : Model) (e : Env) (s : State) (hi : Inv s) : Inv (mainStep M e s) := by
  obtain ⟨h1, h2, h3, h4, h5, h6⟩ := hi
  unfold mainStep
  cases hloc : s.loc with
  | poll =>
    by_cases hr : s.inference_ready = 0
    · simp only [hr, ne_eq, not_true_eq_false, if_false]
      constructor <;> simp_all
    · simp only [hr, ne_eq, not_false_eq_true, if_true]
      constructor <;> simp_all
  | call =>
    constructor <;> simp_all
  | clear =>
    constructor <;> simp_all
  | delay =>
    constructor <;> simp_all

theorem inv_step (M : Model) (st : Step) (s t : State) (hi : Inv s)
    (h : step M st s = some t) : Inv t := by
  cases st with
  | irq rxne d => exact inv_handler rxne d s t hi h
  | main e =>
    have : t = mainStep M e s := (Option.some.inj h).symm
    rw [this]
    exact inv_mainStep M e s hi

theorem inv_reachable (M : Model) (s : State) (h : Reachable M s) : Inv s := by
  induction h with
  | init => exact inv_init
  | step s s1 st _ hstep ih => exact inv_step M st s s1 ih hstep

theorem handler_defined (rxne : Bool) (d : Nat) (s : State) (hi : Inv s) :
    ∃ t, USART1_IRQHandler rxne d s = some t := by
  cases rxne with
  | false => exact ⟨s, handler_not_rxne d s⟩
  | true =>
    by_cases hr : s.inference_ready = 0
    · by_cases hlast : s.uart_rx_count + 1 < (INPUT_SIZE : Int)
      · exact ⟨_, handler_collect d s hr hi.cursor_nonneg hlast⟩
      · have h2 := hi.cursor_lt
        exact ⟨_, handler_last d s hr (by omega)⟩
    · exact ⟨s, handler_pending true d s hr⟩

/-! ## Runs -/

theorem run_append (M : Model) (xs ys : List Step) (s : State) :
    run M (xs ++ ys) s = (run M xs s).bind (run M ys) := by
  induction xs generalizing s with
  | nil => simp [run]
  | cons st rest ih =>
    simp only [List.cons_append, run]
    cases step M st s with
    | none => simp
    | some s1 => simpa using ih s1

theorem run_arrivals (M : Model) (bs : List Nat) (s : State) :
    run M (arrivals bs) s = feed bs s := by
  induction bs generalizing s with
  | nil => rfl
  | cons b bs ih =>
    simp only [arrivals, List.map_cons, run, step, feed]
    cases USART1_IRQHandler true b s with
    | none => rfl
    | some s1 => simpa [arrivals] using ih s1

theorem reachable_run (M : Model) (xs : List Step) (s t : State) (hs : Reachable M s)
    (h : run M xs s = some t) : Reachable M t := by
  induction xs generalizing s with
  | nil =>
    have : t = s := (Option.some.inj h).symm
    rw [this]
    exact hs
  | cons st rest ih =>
    simp only [run] at h
    cases hstep : step M st s with
    | none => simp [hstep] at h
    | some s1 =>
      simp only [hstep] at h
      exact ih s1 (Reachable.step s s1 st hs hstep) h

/-! ## Counting the rises of the flag -/

theorem runRises_append (M : Model) (xs ys : List Step) (s : State) :
    runRises M (xs ++ ys) s =
      (runRises M xs s).bind
        (fun p => (runRises M ys p.2).map (fun q => (p.1 + q.1, q.2))) := by
  induction xs generalizing s with
  | nil =>
    simp only [List.nil_append, runRises, Option.some_bind]
    cases runRises M ys s <;> simp
  | cons st rest ih =>
    simp only [List.cons_append, runRises]
    cases step M st s with
    | none => simp
    | some s1 =>
      simp only [List.append_eq]
      rw [ih s1]
      cases runRises M rest s1 with
      | none => simp
      | some p =>
        obtain ⟨n, t⟩ := p
        simp only [Option.some_bind]
        cases runRises M ys t with
        | none => simp
        | some q =>
          by_cases hrise : s.inference_ready = 0 ∧ s1.inference_ready ≠ 0
          · rw [if_pos hrise]
            simp only [Option.map_some', if_pos hrise, Option.some.injEq, Prod.mk.injEq, and_true]
            omega
          · rw [if_neg hrise]
            simp only [Option.map_some', if_neg hrise]

theorem runRises_single (M : Model) (st : Step) (s s1 : State) (h : step M st s = some s1) :
    runRises M [st] s =
      some ((if s.inference_ready = 0 ∧ s1.inference_ready ≠ 0 then 1 else 0), s1) := by
  simp [runRises, h]

theorem run_of_runRises (M : Model) (xs : List Step) (s t : State) (n : Nat)
    (h : runRises M xs s = some (n, t)) : run M xs s = some t := by
  induction xs generalizing s n with
  | nil =>
    simp only [runRises, Option.some.injEq, Prod.mk.injEq] at h
    simp [run, h.2]
  | cons st rest ih =>
    simp only [runRises] at h
    simp only [run]
    cases hstep : step M st s with
    | none => simp [hstep] at h
    | some s1 =>
      simp only [hstep] at h
      cases hrest : runRises M rest s1 with
      | none => simp [hrest] at h
      | some p =>
        obtain ⟨m, u⟩ := p
        simp only [hrest, Option.some.injEq, Prod.mk.injEq] at h
        have hu : u = t := h.2
        subst hu
        exact ih s1 m hrest

theorem arrivals_snoc (l : List Nat) (b : Nat) :
    arrivals (l ++ [b]) = arrivals l ++ [Step.irq true b] := by
  simp [arrivals]

theorem runRises_collecting (M : Model) (bs : List Nat) (s : State)
    (hc : s.uart_rx_count = 0) (hr : s.inference_ready = 0) (hl : bs.length < INPUT_SIZE) :
    runRises M (arrivals bs) s = some (0,
      { s with image_buffer := written bs s.image_buffer, uart_rx_count := (bs.length : Int) }) := by
  induction bs using List.reverseRecOn with
  | nil =>
    have : written [] s.image_buffer = s.image_buffer := by
      funext i; simp [written]
    simp [arrivals, runRises, this, ← hc]
  | append_singleton l b ih =>
    have hl1 : l.length + 1 < INPUT_SIZE := by simpa using hl
    have key : step M (Step.irq true b) _ = _ := handler_collect b
      { s with image_buffer := written l s.image_buffer, uart_rx_count := (l.length : Int) }
      hr (by simp) (by simp; omega)
    rw [arrivals_snoc, runRises_append, ih (by omega)]
    simp only [Option.some_bind]
    rw [runRises_single M _ _ _ key]
    simp [written_snoc, hr]

theorem runRises_full (M : Model) (bs : List Nat) (s : State)
    (hc : s.uart_rx_count = 0) (hr : s.inference_ready = 0) (hl : bs.length = INPUT_SIZE) :
    runRises M (arrivals bs) s = some (1,
      { s with
        image_buffer := written bs s.image_buffer
        uart_rx_count := 0
        inference_ready := 1 }) := by
  induction bs using List.reverseRecOn with
  | nil => simp [INPUT_SIZE_eq] at hl
  | append_singleton l b _ =>
    have hl1 : l.length + 1 = INPUT_SIZE := by simpa using hl
    have key : step M (Step.irq true b) _ = _ := handler_last b
      { s with image_buffer := written l s.image_buffer, uart_rx_count := (l.length : Int) }
      hr (by simp; omega)
    rw [arrivals_snoc, runRises_append, runRises_collecting M l s hc hr (by omega)]
    simp only [Option.some_bind]
    rw [runRises_single M _ _ _ key]
    simp [written_snoc, hr]

theorem runRises_pending (M : Model) (bs : List Nat) (s : State) (h : s.inference_ready ≠ 0) :
    runRises M (arrivals bs) s = some (0, s) := by
  induction bs with
  | nil => rfl
  | cons b bs ih =>
    have hb : arrivals (b :: bs) = Step.irq true b :: arrivals bs := rfl
    have hstep : step M (Step.irq true b) s = some s := handler_pending true b s h
    rw [hb]
    simp [runRises, hstep, ih, h]

theorem run_idle_iteration (M : Model) (e : Env) (s : State) (hloc : s.loc = Loc.poll)
    (h : s.inference_ready = 0) :
    run M [Step.main e, Step.main e] s = some (main_loop_body M e s) := by
  obtain ⟨buf, cnt, rdy, fc, loc, con, cls⟩ := s
  simp only at hloc h
  subst hloc
  simp [run, step, mainStep, main_loop_body, h]

theorem runRises_iteration (M : Model) (e : Env) (s : State) (hloc : s.loc = Loc.poll)
    (h : s.inference_ready ≠ 0) :
    runRises M (iteration e) s = some (0, main_loop_body M e s) := by
  obtain ⟨buf, cnt, rdy, fc, loc, con, cls⟩ := s
  simp only at hloc h
  subst hloc
  simp [iteration, runRises, step, mainStep, main_loop_body, h]

/-! ## What the loop body leaves alone -/

theorem mainStep_uart_rx_count (M : Model) (e : Env) (s : State) :
    (mainStep M e s).uart_rx_count = s.uart_rx_count := by
  unfold mainStep
  cases s.loc <;> simp only []
  split_ifs <;> rfl

theorem mainStep_image_buffer (M : Model) (e : Env) (s : State) :
    (mainStep M e s).image_buffer = s.image_buffer := by
  unfold mainStep
  cases s.loc <;> simp only []
  split_ifs <;> rfl

theorem mainStep_flag (M : Model) (e : Env) (s : State) :
    (mainStep M e s).inference_ready = if s.loc = Loc.clear then 0 else s.inference_ready := by
  cases hloc : s.loc <;> simp only [mainStep, hloc]
  · split_ifs <;> first | rfl | contradiction
  · simp
  · simp
  · simp

/-- The consumer writes neither the buffer nor the cursor: every part of `main`'s loop, and
a whole pass through its body, leaves `image_buffer` and `uart_rx_count` as they are. -/
theorem main_leaves_buffer_and_cursor (M : Model) (e : Env) (s : State) :
    (mainStep M e s).image_buffer = s.image_buffer ∧
    (mainStep M e s).uart_rx_count = s.uart_rx_count ∧
    (main_loop_body M e s).image_buffer = s.image_buffer ∧
    (main_loop_body M e s).uart_rx_count = s.uart_rx_count := by
  refine ⟨mainStep_image_buffer M e s, mainStep_uart_rx_count M e s, ?_, ?_⟩
  · unfold main_loop_body
    split_ifs <;> rfl
  · unfold main_loop_body
    split_ifs <;> rfl

theorem demoFrame_length : demoFrame.length = INPUT_SIZE := by
  rw [demoFrame, List.length_replicate]
  rfl

theorem reachable_pendingState (M : Model) : Reachable M pendingState := by
  apply reachable_run M (arrivals demoFrame) initState pendingState Reachable.init
  rw [run_arrivals, feed_full demoFrame initState rfl rfl demoFrame_length]
  rfl

theorem run_iteration_pending (M : Model) (s : State) (hloc : s.loc = Loc.poll)
    (hr : s.inference_ready ≠ 0) (e0 e1 e2 : Env) (a1 a2 : List Nat) :
    run M (Step.main e0 :: (arrivals a1 ++ Step.main e1 :: (arrivals a2 ++ [Step.main e2]))) s =
      some { s with
        frame_counter := wrapInt32 (s.frame_counter + 1)
        console := s.console ++
          (DiabeticRetinopathyInference M e1 s.image_buffer
            (wrapInt32 (s.frame_counter + 1))).output ++ [Out.ready]
        calls := s.calls ++ [(wrapInt32 (s.frame_counter + 1), s.image_buffer)]
        inference_ready := 0
        loc := Loc.delay } := by
  obtain ⟨buf, cnt, rdy, fc, loc, con, cls⟩ := s
  simp only at hloc hr
  subst hloc
  have h1 : ∀ (l : Loc) (f : Int) (c : List Out) (k : List (Int × (Nat → Int))) (a : List Nat),
      feed a ⟨buf, cnt, rdy, f, l, c, k⟩ = some ⟨buf, cnt, rdy, f, l, c, k⟩ :=
    fun l f c k a => feed_pending a _ hr
  simp [run, step, mainStep, hr, run_append, run_arrivals, h1]


/-! ## The intake protocol -/

/-- C1: from a state with `uart_rx_count = 0` and `inference_ready = 0`, feeding exactly
`INPUT_SIZE` bytes to the handler (receive flag set) leaves `inference_ready` at 0 after
each proper initial part of the sequence and sets it to 1 at the last byte, and then
`image_buffer[i]` is the `i`-th byte converted to `int8_t`, for every `i < INPUT_SIZE`. -/
theorem C1_full_frame_sets_ready_once (s : State) (bytes : List Nat)
    (hc : s.uart_rx_count = 0) (hr : s.inference_ready = 0)
    (hl : bytes.length = INPUT_SIZE) :
    (∀ k, k < INPUT_SIZE →
      ∃ t, feed (bytes.take k) s = some t ∧ t.inference_ready = 0) ∧
    (∃ t, feed bytes s = some t ∧ t.inference_ready = 1 ∧
      ∀ i (hi : i < INPUT_SIZE), t.image_buffer i = toInt8 (bytes.get ⟨i, by omega⟩)) := by
  constructor
  · intro k hk
    have hlen : (bytes.take k).length < INPUT_SIZE := by
      rw [List.length_take]
      omega
    exact ⟨_, feed_collecting (bytes.take k) s hc hr hlen, hr⟩
  · refine ⟨_, feed_full bytes s hc hr hl, rfl, ?_⟩
    intro i hi
    have hi2 : i < bytes.length := by omega
    show written bytes s.image_buffer i = _
    simp [written, hi2]

/-- C1 at the frame `demoFrame` arriving in `initState`. -/
theorem C1_full_frame_sets_ready_once_witness :
    initState.uart_rx_count = 0 ∧ initState.inference_ready = 0 ∧
    demoFrame.length = INPUT_SIZE ∧
    ∃ t, feed demoFrame initState = some t ∧ t.inference_ready = 1 ∧
      t.image_buffer 1023 = -56 := by
  obtain ⟨_, t, h1, h2, h3⟩ :=
    C1_full_frame_sets_ready_once initState demoFrame rfl rfl demoFrame_length
  refine ⟨rfl, rfl, demoFrame_length, t, h1, h2, ?_⟩
  have h := h3 1023 (by rw [INPUT_SIZE_eq]; omega)
  rw [h]
  simp only [demoFrame, List.get_eq_getElem, List.getElem_replicate]
  decide

/-- C2: in a state with `inference_ready` non-zero, one call of the handler, whatever the
receive flag and the data word, returns with every element of `image_buffer`,
`uart_rx_count` and `inference_ready` unchanged (the whole state is unchanged). -/
theorem C2_pending_byte_is_discarded (s : State) (rxne : Bool) (data : Nat)
    (h : s.inference_ready ≠ 0) :
    ∃ t, USART1_IRQHandler rxne data s = some t ∧
      (∀ i, t.image_buffer i = s.image_buffer i) ∧
      t.uart_rx_count = s.uart_rx_count ∧
      t.inference_ready = s.inference_ready ∧ t = s :=
  ⟨s, handler_pending rxne data s h, fun _ => rfl, rfl, rfl, rfl⟩

/-- C2 at `pendingState` and the data word 77. -/
theorem C2_pending_byte_is_discarded_witness :
    pendingState.inference_ready ≠ 0 ∧
    ∃ t, USART1_IRQHandler true 77 pendingState = some t ∧
      (∀ i, t.image_buffer i = pendingState.image_buffer i) ∧
      t.uart_rx_count = pendingState.uart_rx_count ∧
      t.inference_ready = pendingState.inference_ready ∧ t = pendingState :=
  ⟨by simp [pendingState], C2_pending_byte_is_discarded pendingState true 77
    (by simp [pendingState])⟩

/-- C9: in every reachable state the cursor satisfies `0 ≤ uart_rx_count < INPUT_SIZE`
and is 0 whenever `inference_ready` is non-zero; so the handler's store
`image_buffer[uart_rx_count]` is inside the array (the handler is defined there); and a
step that takes the cursor from a non-zero value to 0 is an arrival at
`uart_rx_count + 1 = INPUT_SIZE` that also takes `inference_ready` from 0 to 1. -/
theorem C9_cursor_stays_inside_buffer (M : Model) (s : State) (h : Reachable M s) :
    (0 ≤ s.uart_rx_count ∧ s.uart_rx_count < (INPUT_SIZE : Int)) ∧
    (s.inference_ready ≠ 0 → s.uart_rx_count = 0) ∧
    (∀ rxne data, ∃ t, USART1_IRQHandler rxne data s = some t) ∧
    (∀ st t, step M st s = some t → s.uart_rx_count ≠ 0 → t.uart_rx_count = 0 →
      (∃ data, st = Step.irq true data) ∧ s.uart_rx_count + 1 = (INPUT_SIZE : Int) ∧
      s.inference_ready = 0 ∧ t.inference_ready = 1) := by
  have hi := inv_reachable M s h
  refine ⟨⟨hi.cursor_nonneg, hi.cursor_lt⟩, hi.pending_cursor,
    fun rxne data => handler_defined rxne data s hi, ?_⟩
  intro st t hstep hne hzero
  cases st with
  | irq rxne data =>
    rcases handler_cases rxne data s t hstep with
      ⟨rfl, _⟩ | ⟨_, _, h0, _, rfl⟩ | ⟨hrx, hr, h1, rfl⟩
    · exact absurd hzero hne
    · have hz : s.uart_rx_count + 1 = 0 := hzero
      omega
    · exact ⟨⟨data, by rw [hrx]⟩, h1, hr, rfl⟩
  | main e =>
    have ht : t = mainStep M e s := (Option.some.inj hstep).symm
    rw [ht, mainStep_uart_rx_count] at hzero
    exact absurd hzero hne

/-- C9 at the reachable state `pendingState` of `demoModel`. -/
theorem C9_cursor_stays_inside_buffer_witness :
    Reachable demoModel pendingState ∧
    (0 ≤ pendingState.uart_rx_count ∧ pendingState.uart_rx_count < (INPUT_SIZE : Int)) ∧
    (∀ rxne data, ∃ t, USART1_IRQHandler rxne data pendingState = some t) :=
  ⟨reachable_pendingState demoModel,
    (C9_cursor_stays_inside_buffer demoModel pendingState (reachable_pendingState demoModel)).1,
    (C9_cursor_stays_inside_buffer demoModel pendingState
      (reachable_pendingState demoModel)).2.2.1⟩

/-! ## The consumer's pass -/

/-- C3: from a reachable state in which `main` is about to test `inference_ready` and the
flag is set, for every model (hence every prediction index, on either reporting path) and
every sequence of arrivals between the test and the call and between the call and the
flag clear, the pass runs to the flag clear, and right after it `inference_ready = 0` and
`uart_rx_count = 0`; the console has gained the lines of the inference and the ready
line. -/
theorem C3_pass_ends_collecting (M : Model) (s : State) (h : Reachable M s)
    (hloc : s.loc = Loc.poll) (hr : s.inference_ready ≠ 0)
    (e0 e1 e2 : Env) (a1 a2 : List Nat) :
    ∃ t, run M (Step.main e0 ::
        (arrivals a1 ++ Step.main e1 :: (arrivals a2 ++ [Step.main e2]))) s = some t ∧
      t.inference_ready = 0 ∧ t.uart_rx_count = 0 ∧
      t.console = s.console ++
        (DiabeticRetinopathyInference M e1 s.image_buffer
          (wrapInt32 (s.frame_counter + 1))).output ++ [Out.ready] :=
  ⟨_, run_iteration_pending M s hloc hr e0 e1 e2 a1 a2, rfl,
    (inv_reachable M s h).pending_cursor hr, rfl⟩

/-- C3 at `pendingState`, three bytes arriving before the inference call and one after
it, on both reporting paths: with `demoModel`, and with `largeIndexModel`, whose prediction
index 7 is out of bounds. -/
theorem C3_pass_ends_collecting_witness :
    Reachable demoModel pendingState ∧ Reachable largeIndexModel pendingState ∧
    pendingState.loc = Loc.poll ∧ pendingState.inference_ready ≠ 0 ∧
    (∃ t, run demoModel (Step.main demoEnv ::
        (arrivals [1, 2, 3] ++ Step.main demoEnv :: (arrivals [4] ++ [Step.main demoEnv])))
        pendingState = some t ∧
      t.inference_ready = 0 ∧ t.uart_rx_count = 0) ∧
    (∃ t, run largeIndexModel (Step.main demoEnv ::
        (arrivals [1, 2, 3] ++ Step.main demoEnv :: (arrivals [4] ++ [Step.main demoEnv])))
        pendingState = some t ∧
      t.inference_ready = 0 ∧ t.uart_rx_count = 0 ∧ Out.outOfBounds ∈ t.console) := by
  have hr : pendingState.inference_ready ≠ 0 := by simp [pendingState]
  obtain ⟨t, h1, h2, h3, _⟩ := C3_pass_ends_collecting demoModel pendingState
    (reachable_pendingState demoModel) rfl hr demoEnv demoEnv demoEnv [1, 2, 3] [4]
  obtain ⟨u, k1, k2, k3, k4⟩ := C3_pass_ends_collecting largeIndexModel pendingState
    (reachable_pendingState largeIndexModel) rfl hr demoEnv demoEnv demoEnv [1, 2, 3] [4]
  refine ⟨reachable_pendingState demoModel, reachable_pendingState largeIndexModel, rfl, hr,
    ⟨t, h1, h2, h3⟩, u, k1, k2, k3, ?_⟩
  have hp : ¬ (DiabeticRetinopathyInference largeIndexModel demoEnv pendingState.image_buffer
      (wrapInt32 (pendingState.frame_counter + 1))).prediction_index
        < largeIndexModel.NUM_CLASSES := by
    rw [inference_prediction]
    show ¬ ((7 : Int) < 5)
    decide
  rw [k4, inference_out_of_range _ _ _ _ hp]
  simp

/-- C4: a handler run takes `inference_ready` from 0 to non-zero only with the receive
flag set and the incremented cursor equal to `INPUT_SIZE` (the new value is 1), and leaves
a non-zero flag as it is; no part of `main`'s loop, and no whole pass through its body,
takes the flag from 0 to non-zero; the part of the loop that takes it from non-zero to 0
is the one at the place `clear`, which in a reachable state is entered with the flag still
set and with the inference call of the current sample already recorded on the buffer as
it is; a whole pass that clears the flag has recorded that call. -/
theorem C4_flag_ownership (M : Model) (e : Env) (s t : State) (rxne : Bool) (data : Nat)
    (h : USART1_IRQHandler rxne data s = some t) :
    (s.inference_ready = 0 → t.inference_ready ≠ 0 →
      rxne = true ∧ s.uart_rx_count + 1 = (INPUT_SIZE : Int) ∧ t.inference_ready = 1) ∧
    (s.inference_ready ≠ 0 → t.inference_ready = s.inference_ready) ∧
    (s.inference_ready = 0 → (mainStep M e s).inference_ready = 0) ∧
    (s.inference_ready = 0 → (main_loop_body M e s).inference_ready = 0) ∧
    (s.inference_ready ≠ 0 → (mainStep M e s).inference_ready = 0 → s.loc = Loc.clear) ∧
    (Reachable M s → s.loc = Loc.clear →
      s.inference_ready ≠ 0 ∧ s.calls.getLast? = some (s.frame_counter, s.image_buffer)) ∧
    (s.inference_ready ≠ 0 →
      (main_loop_body M e s).inference_ready = 0 ∧
      (main_loop_body M e s).calls =
        s.calls ++ [(wrapInt32 (s.frame_counter + 1), s.image_buffer)]) := by
  refine ⟨?_, ?_, ?_, ?_, ?_, ?_, ?_⟩
  · intro h0 hne
    rcases handler_cases rxne data s t h with ⟨rfl, _⟩ | ⟨_, hr, _, _, rfl⟩ | ⟨hrx, _, h1, rfl⟩
    · exact absurd h0 hne
    · exact absurd hr hne
    · exact ⟨hrx, h1, rfl⟩
  · intro hne
    rw [handler_pending rxne data s hne] at h
    rw [← Option.some.inj h]
  · intro h0
    rw [mainStep_flag]
    split_ifs
    · rfl
    · exact h0
  · intro h0
    simp [main_loop_body, h0]
  · intro hne hz
    rw [mainStep_flag] at hz
    by_contra hloc
    rw [if_neg hloc] at hz
    exact hne hz
  · intro hreach hloc
    have hi := inv_reachable M s hreach
    exact ⟨hi.pass_pending (Or.inr hloc), hi.pass_called hloc⟩
  · intro hne
    simp [main_loop_body, hne]

/-- C4 at the handler run that completes a frame, from `lastByteState`. -/
theorem C4_flag_ownership_witness :
    USART1_IRQHandler true 5 lastByteState = some
      { lastByteState with
        image_buffer := Function.update lastByteState.image_buffer 1023 (toInt8 5)
        uart_rx_count := 0
        inference_ready := 1 } ∧
    lastByteState.uart_rx_count + 1 = (INPUT_SIZE : Int) ∧
    (mainStep demoModel demoEnv lastByteState).inference_ready = 0 := by
  have hrun := handler_last 5 lastByteState rfl (by simp [lastByteState, INPUT_SIZE_eq])
  have hC := C4_flag_ownership demoModel demoEnv lastByteState _ true 5 hrun
  exact ⟨hrun, (hC.1 rfl (by simp)).2.1, hC.2.2.1 rfl⟩

/-! ## The report of the orchestrator -/

/-- C8: for 32-bit readings `start_ticks` and `end_ticks`, every cycle count that
`DiabeticRetinopathyInference` prints equals `(end_ticks - start_ticks) mod 2^32`, one is
printed on the in-range path, and when `end_ticks = (start_ticks + d) mod 2^32` with
`d < 2^32` the printed count is `d`. -/
theorem C8_elapsed_is_wrapped_difference (M : Model) (e : Env) (image : Nat → Int) (n : Int)
    (hs : e.start_ticks < 4294967296) (he : e.end_ticks < 4294967296) :
    (∀ c, Out.timing c ∈ (DiabeticRetinopathyInference M e image n).output →
      (c : Int) = ((e.end_ticks : Int) - (e.start_ticks : Int)) % 4294967296) ∧
    ((DiabeticRetinopathyInference M e image n).prediction_index < M.NUM_CLASSES →
      ∃ c, Out.timing c ∈ (DiabeticRetinopathyInference M e image n).output) ∧
    (∀ d, d < 4294967296 → e.end_ticks = (e.start_ticks + d) % 4294967296 →
      ∀ c, Out.timing c ∈ (DiabeticRetinopathyInference M e image n).output → c = d) := by
  have key : ∀ c, Out.timing c ∈ (DiabeticRetinopathyInference M e image n).output →
      c = subU32 e.end_ticks e.start_ticks := by
    intro c hc
    by_cases hp : (DiabeticRetinopathyInference M e image n).prediction_index < M.NUM_CLASSES
    · rw [inference_in_range M e image n hp] at hc
      simpa using hc
    · rw [inference_out_of_range M e image n hp] at hc
      simp at hc
  refine ⟨?_, ?_, ?_⟩
  · intro c hc
    rw [key c hc]
    exact subU32_cast _ _ he hs
  · intro hp
    refine ⟨subU32 e.end_ticks e.start_ticks, ?_⟩
    rw [inference_in_range M e image n hp]
    simp
  · intro d hd hend c hc
    rw [key c hc, hend]
    exact subU32_add _ _ hs hd

/-- C8 at `demoEnv`, where the counter wraps between the readings 4294967290 and 5:
the printed count is 11. -/
theorem C8_elapsed_is_wrapped_difference_witness :
    demoEnv.start_ticks < 4294967296 ∧ demoEnv.end_ticks < 4294967296 ∧
    demoEnv.end_ticks = (demoEnv.start_ticks + 11) % 4294967296 ∧
    ∀ c, Out.timing c ∈
      (DiabeticRetinopathyInference demoModel demoEnv (fun _ => 0) 1).output → c = 11 :=
  ⟨by decide, by decide, by decide,
    (C8_elapsed_is_wrapped_difference demoModel demoEnv (fun _ => 0) 1
      (by decide) (by decide)).2.2 11 (by decide) (by decide)⟩

theorem AgreeUpTo.mono {n m : Nat} {a b : Nat → Int} (hnm : n ≤ m) (h : AgreeUpTo m a b) :
    AgreeUpTo n a b :=
  fun i hi => h i (Nat.lt_of_lt_of_le hi hnm)

theorem finalLayer_agrees (M : Model) (hF : Framed M)
    (h2 : M.L2_IN_NODES ≤ M.L1_OUT_NODES) (h3 : M.L3_IN_NODES ≤ M.L2_OUT_NODES)
    (e : Env) (image : Nat → Int) :
    AgreeUpTo M.L3_OUT_NODES (finalLayer M e image)
      (FC M M.L3_weights M.L3_biases M.L3_IN_NODES M.L3_OUT_NODES
        (Requantize M M.L2_OUT_NODES
          (FC M M.L2_weights M.L2_biases M.L2_IN_NODES M.L2_OUT_NODES
            (Requantize M M.L1_OUT_NODES
              (FC M M.L1_weights M.L1_biases M.L1_IN_NODES M.L1_OUT_NODES image))))) := by
  unfold finalLayer FC Requantize
  apply hF.processfclayer
  apply AgreeUpTo.mono h3
  apply hF.ReLUNorm
  apply hF.processfclayer
  apply AgreeUpTo.mono h2
  apply hF.ReLUNorm
  apply hF.processfclayer
  intro i _
  rfl

/-! ## The helpers modelled from the spec meet the frame conditions and the contracts -/

theorem dotRow_congr (x y W : Nat → Int) (n_in j : Nat) (h : AgreeUpTo n_in x y) :
    dotRow x W n_in j = dotRow y W n_in j := by
  unfold dotRow
  apply Finset.sum_congr rfl
  intro i hi
  rw [h i (Finset.mem_range.mp hi)]

theorem dotRow_zero (x W : Nat → Int) (n_in j : Nat) (h : ∀ i, i < n_in → x i = 0) :
    dotRow x W n_in j = 0 := by
  unfold dotRow
  apply Finset.sum_eq_zero
  intro i hi
  rw [h i (Finset.mem_range.mp hi), zero_mul]

theorem requant_zero (shift : Nat) : requant shift 0 = 0 := by
  simp [requant, saturate8, Int.zero_shiftRight]

theorem argmaxScan_le (a : Nat → Int) (n : Nat) : argmaxScan a n ≤ n - 1 := by
  induction n with
  | zero => simp [argmaxScan]
  | succ n ih =>
    simp only [argmaxScan]
    split_ifs <;> omega

theorem argmaxScan_congr (a b : Nat → Int) (n : Nat) (h : AgreeUpTo n a b) :
    argmaxScan a n = argmaxScan b n := by
  induction n with
  | zero => rfl
  | succ n ih =>
    have hprev : argmaxScan a n = argmaxScan b n := ih (AgreeUpTo.mono (Nat.le_succ n) h)
    have hk : argmaxScan b n < n + 1 := by
      have := argmaxScan_le b n
      omega
    simp only [argmaxScan, hprev, h (argmaxScan b n) hk, h n (Nat.lt_succ_self n)]

theorem argmaxScan_spec (a : Nat → Int) (n : Nat) (hn : 0 < n) :
    argmaxScan a n < n ∧ (∀ i, i < n → a i ≤ a (argmaxScan a n)) ∧
      (∀ i, i < argmaxScan a n → a i < a (argmaxScan a n)) := by
  induction n with
  | zero => omega
  | succ n ih =>
    by_cases hz : n = 0
    · subst hz
      have h0 : argmaxScan a (0 + 1) = 0 := by simp [argmaxScan]
      rw [h0]
      refine ⟨by omega, ?_, ?_⟩
      · intro i hi
        have : i = 0 := by omega
        rw [this]
      · intro i hi
        omega
    · obtain ⟨hlt, hmax, hfirst⟩ := ih (by omega)
      by_cases hnew : a (argmaxScan a n) < a n
      · have hk : argmaxScan a (n + 1) = n := by simp [argmaxScan, hnew]
        rw [hk]
        refine ⟨by omega, ?_, ?_⟩
        · intro i hi
          by_cases hin : i = n
          · rw [hin]
          · have := hmax i (by omega)
            omega
        · intro i hi
          have := hmax i hi
          omega
      · have hk : argmaxScan a (n + 1) = argmaxScan a n := by simp [argmaxScan, hnew]
        rw [hk]
        refine ⟨by omega, ?_, hfirst⟩
        intro i hi
        by_cases hin : i = n
        · rw [hin]
          omega
        · exact hmax i (by omega)

theorem demoModel_framed : Framed demoModel where
  processfclayer := by
    intro x y W B n_in n_out o p h j hj
    show specProcessfclayer x W B n_in n_out o j = specProcessfclayer y W B n_in n_out p j
    simp only [specProcessfclayer, if_pos hj, dotRow_congr x y W n_in j h]
  ReLUNorm := by
    intro a b o p n h i hi
    show specReLUNorm 2 a o n i = specReLUNorm 2 b p n i
    simp only [specReLUNorm, if_pos hi, h i hi]
  findMaxIndex := by
    intro a b n h
    show specFindMaxIndex a n = specFindMaxIndex b n
    simp only [specFindMaxIndex, argmaxScan_congr a b n h]

theorem demoModel_contracts : MeetsContracts demoModel 2 where
  processfclayer := by
    intro x W B n_in n_out o j hj
    show specProcessfclayer x W B n_in n_out o j = _
    simp only [specProcessfclayer, if_pos hj]
  ReLUNorm := by
    intro a o n i hi
    show specReLUNorm 2 a o n i = _
    simp only [specReLUNorm, if_pos hi]
  findMaxIndex := by
    intro a n hn
    exact ⟨argmaxScan a n, rfl, argmaxScan_spec a n hn⟩

/-! ## Zero input through zero biases -/

theorem fc_zero (M : Model) (shift : Nat) (hC : MeetsContracts M shift)
    (x W B : Nat → Int) (n_in n_out : Nat) (o : Nat → Int)
    (hx : ∀ i, i < n_in → x i = 0) (hB : ∀ j, j < n_out → B j = 0) :
    ∀ j, j < n_out → M.processfclayer x W B n_in n_out o j = 0 := by
  intro j hj
  rw [hC.processfclayer x W B n_in n_out o j hj, dotRow_zero x W n_in j hx, hB j hj]
  rfl

theorem relu_zero (M : Model) (shift : Nat) (hC : MeetsContracts M shift)
    (a o : Nat → Int) (n : Nat) (ha : ∀ i, i < n → a i = 0) :
    ∀ i, i < n → M.ReLUNorm a o n i = 0 := by
  intro i hi
  rw [hC.ReLUNorm a o n i hi, ha i hi, requant_zero]

theorem argmax_zero (M : Model) (shift : Nat) (hC : MeetsContracts M shift)
    (a : Nat → Int) (n : Nat) (hn : 0 < n) (ha : ∀ i, i < n → a i = 0) :
    M.findMaxIndex a n = 0 := by
  obtain ⟨k, hk, hlt, _, hfirst⟩ := hC.findMaxIndex a n hn
  by_cases hz : k = 0
  · rw [hk, hz]
  · have h0 := hfirst 0 (by omega)
    rw [ha 0 hn, ha k hlt] at h0
    omega

theorem finalLayer_zero (M : Model) (shift : Nat) (hC : MeetsContracts M shift)
    (e : Env) (image : Nat → Int)
    (hb1 : ∀ j, j < M.L1_OUT_NODES → M.L1_biases j = 0)
    (hb2 : ∀ j, j < M.L2_OUT_NODES → M.L2_biases j = 0)
    (hb3 : ∀ j, j < M.L3_OUT_NODES → M.L3_biases j = 0)
    (himg : ∀ i, i < INPUT_SIZE → image i = 0)
    (h1 : M.L1_IN_NODES ≤ INPUT_SIZE)
    (h2 : M.L2_IN_NODES ≤ M.L1_OUT_NODES) (h3 : M.L3_IN_NODES ≤ M.L2_OUT_NODES) :
    ∀ j, j < M.L3_OUT_NODES → finalLayer M e image j = 0 := by
  unfold finalLayer
  apply fc_zero M shift hC _ _ _ _ _ _ _ hb3
  intro i hi
  apply relu_zero M shift hC _ _ _ _ i (by omega)
  apply fc_zero M shift hC _ _ _ _ _ _ _ hb2
  intro i hi
  apply relu_zero M shift hC _ _ _ _ i (by omega)
  apply fc_zero M shift hC _ _ _ _ _ _ _ hb1
  intro i hi
  exact himg i (by omega)


/-! ## The prediction -/

/-- C6: for helpers that are functions of the elements they are handed, and layers each
reading no more than the layer before wrote, the prediction index computed by
`DiabeticRetinopathyInference` is, for every `image_buffer` and whatever the two local
arrays held, `findMaxIndex(FC3(ReLUNorm(FC2(ReLUNorm(FC1(image_buffer))))))` over
`L3_OUT_NODES` outputs: `ReLUNorm` follows layers 1 and 2 only and `findMaxIndex` reads the
layer-3 accumulators. -/
theorem C6_prediction_is_layer_composition (M : Model) (hF : Framed M)
    (h2 : M.L2_IN_NODES ≤ M.L1_OUT_NODES) (h3 : M.L3_IN_NODES ≤ M.L2_OUT_NODES)
    (e : Env) (image : Nat → Int) (n : Int) :
    (DiabeticRetinopathyInference M e image n).prediction_index =
      referencePrediction M image := by
  rw [inference_prediction]
  unfold referencePrediction
  rw [hF.findMaxIndex _ _ _ (finalLayer_agrees M hF h2 h3 e image)]

/-- C6 at `demoModel`, with non-zero initial content of the local arrays. -/
theorem C6_prediction_is_layer_composition_witness :
    Framed demoModel ∧ demoModel.L2_IN_NODES ≤ demoModel.L1_OUT_NODES ∧
    demoModel.L3_IN_NODES ≤ demoModel.L2_OUT_NODES ∧
    (DiabeticRetinopathyInference demoModel demoEnv (fun i => (i % 3 : Nat)) 1).prediction_index
      = referencePrediction demoModel (fun i => (i % 3 : Nat)) :=
  ⟨demoModel_framed, Nat.le_refl _, Nat.le_refl _,
    C6_prediction_is_layer_composition demoModel demoModel_framed (Nat.le_refl _)
      (Nat.le_refl _) demoEnv (fun i => (i % 3 : Nat)) 1⟩

/-- C7: for helpers that meet their contracts (exact dot product plus bias; rectify,
shift, saturate; lowest index of the maximum), a network with three zero bias vectors and
any weights, whose first layer reads inside `image_buffer`, whose later layers read no more
than the layer before wrote, and which has at least one output and one class, and an
`image_buffer` of zeros: `DiabeticRetinopathyInference` computes prediction index 0 and
prints the prediction line with the label `class_names[0]`, which is "Mild". -/
theorem C7_zero_input_selects_index_zero (M : Model) (shift : Nat)
    (hC : MeetsContracts M shift) (e : Env) (image : Nat → Int) (n : Int)
    (hb1 : ∀ j, j < M.L1_OUT_NODES → M.L1_biases j = 0)
    (hb2 : ∀ j, j < M.L2_OUT_NODES → M.L2_biases j = 0)
    (hb3 : ∀ j, j < M.L3_OUT_NODES → M.L3_biases j = 0)
    (himg : ∀ i, i < INPUT_SIZE → image i = 0)
    (h1 : M.L1_IN_NODES ≤ INPUT_SIZE)
    (h2 : M.L2_IN_NODES ≤ M.L1_OUT_NODES) (h3 : M.L3_IN_NODES ≤ M.L2_OUT_NODES)
    (hout : 0 < M.L3_OUT_NODES) (hcls : 0 < M.NUM_CLASSES) :
    (DiabeticRetinopathyInference M e image n).prediction_index = 0 ∧
    ∃ (h0 : (0 : Int) ≤ 0) (h1 : (0 : Int) < (M.NUM_CLASSES : Int)),
      class_names M 0 h0 h1 = some "Mild" ∧
      (DiabeticRetinopathyInference M e image n).output =
        [Out.running n, Out.rule, Out.prediction 0 (class_names M 0 h0 h1),
          Out.timing (subU32 e.end_ticks e.start_ticks), Out.ruleBlank] := by
  have hp : (DiabeticRetinopathyInference M e image n).prediction_index = 0 := by
    rw [inference_prediction, argmax_zero M shift hC _ _ hout
      (finalLayer_zero M shift hC e image hb1 hb2 hb3 himg h1 h2 h3)]
    rfl
  have hcls2 : (0 : Int) < (M.NUM_CLASSES : Int) := by exact_mod_cast hcls
  have hout2 := inference_in_range M e image n (by rw [hp]; exact hcls2)
  simp only [class_names_eq] at hout2
  rw [hp] at hout2
  refine ⟨hp, le_refl _, hcls2, rfl, ?_⟩
  simp only [class_names_eq]
  exact hout2

/-- C7 at `demoModel` (shift 2, zero biases, non-zero weights) and the zero image. -/
theorem C7_zero_input_selects_index_zero_witness :
    MeetsContracts demoModel 2 ∧
    (∀ j, j < demoModel.L1_OUT_NODES → demoModel.L1_biases j = 0) ∧
    (∀ j, j < demoModel.L2_OUT_NODES → demoModel.L2_biases j = 0) ∧
    (∀ j, j < demoModel.L3_OUT_NODES → demoModel.L3_biases j = 0) ∧
    demoModel.L1_IN_NODES ≤ INPUT_SIZE ∧
    demoModel.L2_IN_NODES ≤ demoModel.L1_OUT_NODES ∧
    demoModel.L3_IN_NODES ≤ demoModel.L2_OUT_NODES ∧
    0 < demoModel.L3_OUT_NODES ∧ 0 < demoModel.NUM_CLASSES ∧
    (DiabeticRetinopathyInference demoModel demoEnv (fun _ => 0) 1).prediction_index = 0 ∧
    (DiabeticRetinopathyInference demoModel demoEnv (fun _ => 0) 1).output =
      [Out.running 1, Out.rule, Out.prediction 0 (some "Mild"),
        Out.timing (subU32 demoEnv.end_ticks demoEnv.start_ticks), Out.ruleBlank] := by
  obtain ⟨hp, _, _, hname, hout⟩ :=
    C7_zero_input_selects_index_zero demoModel 2 demoModel_contracts demoEnv
      (fun _ => 0) 1 (fun _ _ => rfl) (fun _ _ => rfl) (fun _ _ => rfl) (fun _ _ => rfl)
      (by rw [INPUT_SIZE_eq]; exact Nat.le_refl _) (Nat.le_refl _) (Nat.le_refl _)
      (by decide) (by decide)
  rw [hname] at hout
  exact ⟨demoModel_contracts, fun _ _ => rfl, fun _ _ => rfl, fun _ _ => rfl,
    by rw [INPUT_SIZE_eq]; exact Nat.le_refl _, Nat.le_refl _, Nat.le_refl _,
    by decide, by decide, hp, hout⟩

/-! ## Rounds of frames -/

theorem wrapInt32_succ (x : Int) : wrapInt32 (wrapInt32 x + 1) = wrapInt32 (x + 1) := by
  unfold wrapInt32
  omega

theorem roundsSteps_append (xs ys : List Round) :
    roundsSteps (xs ++ ys) = roundsSteps xs ++ roundsSteps ys := by
  induction xs with
  | nil => rfl
  | cons r rs ih => simp [roundsSteps, ih]

theorem roundsSteps_single (r : Round) : roundsSteps [r] = roundSteps r := by
  simp [roundsSteps]

theorem written_get (bs : List Nat) (buf : Nat → Int) (j b : Nat) (h : bs[j]? = some b) :
    written bs buf j = toInt8 b := by
  have hj : j < bs.length := by
    by_contra hge
    rw [List.getElem?_eq_none (by omega)] at h
    exact absurd h (by simp)
  rw [List.getElem?_eq_getElem hj] at h
  simp only [written, if_pos hj, List.getD_eq_getElem _ _ hj]
  rw [Option.some.inj h]

theorem round_run (M : Model) (r : Round) (s : State) (hloc : s.loc = Loc.poll)
    (hc : s.uart_rx_count = 0) (hr : s.inference_ready = 0)
    (hl : r.frame.length = INPUT_SIZE) :
    runRises M (roundSteps r) s = some (1,
      { s with
        image_buffer := written r.frame s.image_buffer
        uart_rx_count := 0
        inference_ready := 0
        frame_counter := wrapInt32 (s.frame_counter + 1)
        console := s.console ++
          (DiabeticRetinopathyInference M r.env (written r.frame s.image_buffer)
            (wrapInt32 (s.frame_counter + 1))).output ++ [Out.ready]
        calls := s.calls ++ [(wrapInt32 (s.frame_counter + 1),
          written r.frame s.image_buffer)] }) := by
  have h1 := runRises_full M r.frame s hc hr hl
  have h2 := runRises_pending M r.extra
    { s with
      image_buffer := written r.frame s.image_buffer
      uart_rx_count := 0
      inference_ready := 1 } (by simp)
  have h3 := runRises_iteration M r.env
    { s with
      image_buffer := written r.frame s.image_buffer
      uart_rx_count := 0
      inference_ready := 1 } hloc (by simp)
  simp [roundSteps, runRises_append, h1, h2, h3, main_loop_body]

theorem rounds_run (M : Model) (rs : List Round) (s : State) (hloc : s.loc = Loc.poll)
    (hc : s.uart_rx_count = 0) (hr : s.inference_ready = 0)
    (hfc : -2147483648 ≤ s.frame_counter ∧ s.frame_counter < 2147483648)
    (hl : ∀ r, r ∈ rs → r.frame.length = INPUT_SIZE) :
    ∃ t, runRises M (roundsSteps rs) s = some (rs.length, t) ∧
      t.loc = Loc.poll ∧ t.uart_rx_count = 0 ∧ t.inference_ready = 0 ∧
      t.frame_counter = wrapInt32 (s.frame_counter + rs.length) ∧
      t.calls.length = s.calls.length + rs.length ∧
      ∀ i r, rs[i]? = some r → ∃ c, t.calls[s.calls.length + i]? = some c ∧
        c.1 = wrapInt32 (s.frame_counter + i + 1) ∧
        ∀ j b, r.frame[j]? = some b → c.2 j = toInt8 b := by
  induction rs using List.reverseRecOn with
  | nil =>
    refine ⟨s, rfl, hloc, hc, hr, ?_, rfl, ?_⟩
    · rw [wrapInt32_of_bounds _ (by simpa using hfc.1) (by simpa using hfc.2)]
      simp
    · intro i r hi
      simp at hi
  | append_singleton l r ih =>
    obtain ⟨t, hrun, htloc, htc, htr, htfc, htlen, htcalls⟩ :=
      ih (fun x hx => hl x (by simp [hx]))
    have hlr : r.frame.length = INPUT_SIZE := hl r (by simp)
    have hround := round_run M r t htloc htc htr hlr
    refine ⟨{ t with
        image_buffer := written r.frame t.image_buffer
        uart_rx_count := 0
        inference_ready := 0
        frame_counter := wrapInt32 (t.frame_counter + 1)
        console := t.console ++
          (DiabeticRetinopathyInference M r.env (written r.frame t.image_buffer)
            (wrapInt32 (t.frame_counter + 1))).output ++ [Out.ready]
        calls := t.calls ++ [(wrapInt32 (t.frame_counter + 1),
          written r.frame t.image_buffer)] }, ?_, htloc, rfl, rfl, ?_, ?_, ?_⟩
    · rw [roundsSteps_append, runRises_append, hrun, roundsSteps_single]
      simp only [Option.some_bind]
      rw [hround]
      simp
    · show wrapInt32 (t.frame_counter + 1) = _
      rw [htfc, wrapInt32_succ]
      congr 1
      simp
      omega
    · simp [htlen]
      omega
    · intro i x hx
      by_cases hi : i < l.length
      · rw [List.getElem?_append_left hi] at hx
        obtain ⟨c, hc1, hc2, hc3⟩ := htcalls i x hx
        refine ⟨c, ?_, hc2, hc3⟩
        show (t.calls ++ _)[s.calls.length + i]? = some c
        rw [List.getElem?_append_left (by omega)]
        exact hc1
      · have hlen : (l ++ [r])[i]? ≠ none := by
          rw [hx]
          simp
        have hi2 : i < (l ++ [r]).length := by
          by_contra hge
          exact hlen (List.getElem?_eq_none (by omega))
        have hil : i = l.length := by
          rw [List.length_append, List.length_singleton] at hi2
          omega
        subst hil
        rw [List.getElem?_concat_length] at hx
        have hxr : x = r := (Option.some.inj hx).symm
        subst hxr
        refine ⟨(wrapInt32 (t.frame_counter + 1), written x.frame t.image_buffer), ?_, ?_, ?_⟩
        · show (t.calls ++ _)[s.calls.length + l.length]? = _
          rw [← htlen, List.getElem?_concat_length]
        · show wrapInt32 (t.frame_counter + 1) = _
          rw [htfc, wrapInt32_succ]
        · intro j b hb
          exact written_get x.frame t.image_buffer j b hb


/-- C10, for fewer than `2^31` rounds: for every run from `initState` made of `k < 2^31`
rounds (a frame of `INPUT_SIZE` bytes, further bytes, one pass through the loop body),
`inference_ready` goes from 0 to non-zero exactly `k` times, the inference is called
exactly `k` times, `main` is back at the head of its loop with flag and cursor 0, and the
`i`-th call (counting from 0) has sample number `i + 1` and reads an `image_buffer` whose
element `j` is byte `j` of the `i`-th frame converted to `int8_t`. -/
theorem C10_one_inference_per_frame (M : Model) (rs : List Round)
    (hk : rs.length < 2147483648)
    (hl : ∀ r, r ∈ rs → r.frame.length = INPUT_SIZE) :
    ∃ t, runRises M (roundsSteps rs) initState = some (rs.length, t) ∧
      t.loc = Loc.poll ∧ t.inference_ready = 0 ∧ t.uart_rx_count = 0 ∧
      t.calls.length = rs.length ∧
      ∀ (i : Nat) (r : Round), rs[i]? = some r → ∃ c, t.calls[i]? = some c ∧
        c.1 = (i : Int) + 1 ∧
        ∀ j b, r.frame[j]? = some b → c.2 j = toInt8 b := by
  obtain ⟨t, hrun, htloc, htc, htr, _, hlen, hcalls⟩ :=
    rounds_run M rs initState rfl rfl rfl ⟨by decide, by decide⟩ hl
  have h0 : initState.calls.length = 0 := rfl
  have hf : initState.frame_counter = 0 := rfl
  rw [h0, Nat.zero_add] at hlen
  refine ⟨t, hrun, htloc, htr, htc, hlen, ?_⟩
  intro i r hi
  obtain ⟨c, hc1, hc2, hc3⟩ := hcalls i r hi
  rw [h0, Nat.zero_add] at hc1
  refine ⟨c, hc1, ?_, hc3⟩
  have hilt : i < rs.length := by
    by_contra hge
    rw [List.getElem?_eq_none (by omega)] at hi
    exact absurd hi (by simp)
  rw [hc2, hf, wrapInt32_of_bounds _ (by omega) (by omega)]
  omega

/-- C10 at two rounds of `demoRound`. -/
theorem C10_one_inference_per_frame_witness :
    [demoRound, demoRound].length < 2147483648 ∧
    (∀ r, r ∈ [demoRound, demoRound] → r.frame.length = INPUT_SIZE) ∧
    ∃ t, runRises demoModel (roundsSteps [demoRound, demoRound]) initState = some (2, t) ∧
      t.calls.length = 2 := by
  have hl : ∀ r, r ∈ [demoRound, demoRound] → r.frame.length = INPUT_SIZE := by
    intro r hr
    have : r = demoRound := by simpa using hr
    rw [this]
    exact demoFrame_length
  obtain ⟨t, h1, _, _, _, h2, _⟩ :=
    C10_one_inference_per_frame demoModel [demoRound, demoRound] (by decide) hl
  exact ⟨by decide, hl, t, h1, h2⟩

/-- C10 as stated fails at `k = 2^31`: after `2^31` rounds of `demoRound` the last call
of the inference has sample number `-2^31`, not `2^31`. -/
theorem C10_sample_number_wraps_at_2_pow_31 :
    (∀ r, r ∈ List.replicate 2147483648 demoRound → r.frame.length = INPUT_SIZE) ∧
    ∃ t c, runRises demoModel (roundsSteps (List.replicate 2147483648 demoRound)) initState
        = some (2147483648, t) ∧
      t.calls[2147483647]? = some c ∧ c.1 = -2147483648 ∧ c.1 ≠ 2147483647 + 1 := by
  have hl : ∀ r, r ∈ List.replicate 2147483648 demoRound → r.frame.length = INPUT_SIZE := by
    intro r hr
    rw [List.eq_of_mem_replicate hr]
    exact demoFrame_length
  obtain ⟨t, hrun, _, _, _, _, _, hcalls⟩ :=
    rounds_run demoModel (List.replicate 2147483648 demoRound) initState rfl rfl rfl
      ⟨by decide, by decide⟩ hl
  rw [List.length_replicate] at hrun
  obtain ⟨c, hc1, hc2, _⟩ := hcalls 2147483647 demoRound
    (List.getElem?_replicate_of_lt (by decide))
  have h0 : initState.calls.length = 0 := rfl
  have hf : initState.frame_counter = 0 := rfl
  rw [h0, Nat.zero_add] at hc1
  have hval : c.1 = -2147483648 := by
    rw [hc2, hf]
    decide
  refine ⟨hl, t, c, hrun, hc1, hval, ?_⟩
  rw [hval]
  decide

end RisvEdgeAI
